import Mathlib

/-!
Shallow embedding of the cookie-lab pipeline's diff-and-report core:
the sheet-append logic of `src/excel_writer.py` and the classification,
snapshot-diff, wide-row and observation logic of
`src/runner_chromium_manual.py`.

Python dicts are modelled as association lists with overwrite-in-place
assignment (`dset`), pandas DataFrames as a header list plus positionally
aligned rows of optional cells (`none` models NaN).
-/

namespace CookieLab

/-- A spreadsheet cell: `none` models pandas NaN (missing), `some s` a string. -/
abbrev Cell := Option String

/-- How a cell is rendered in the written workbook: NaN renders as empty. -/
def renderCell (c : Cell) : String := c.getD ""

/-- A pandas DataFrame: ordered column labels plus rows of cells, each row
aligned positionally with `cols`. -/
structure DataFrame where
  cols : List String
  rows : List (List Cell)
deriving DecidableEq, Repr

/-- Index of the first occurrence of `a` in `l` (pandas column-label lookup). -/
def idxOf? [DecidableEq α] : List α → α → Option Nat
  | [], _ => none
  | x :: xs, a => if x = a then some 0 else (idxOf? xs a).map (fun i => i + 1)

/-- Align one row, described by its own column list `srcCols`, to a new column
list `cols` (the row-level action of `df.reindex(columns=cols)`); labels not
present in `srcCols` become NaN. -/
def reindexRow (srcCols : List String) (row : List Cell) (cols : List String) :
    List Cell :=
  cols.map (fun c =>
    match idxOf? srcCols c with
    | some i => row.getD i none
    | none => none)

/-- `df.reindex(columns=cols)`. -/
def reindexDF (df : DataFrame) (cols : List String) : DataFrame :=
  ⟨cols, df.rows.map (fun r => reindexRow df.cols r cols)⟩

/-- `pd.concat([df1, df2], ignore_index=True)` (default `sort=False`): the
result's columns are `df1`'s followed by `df2`'s unseen ones in order of
appearance; rows of both frames are aligned to that union, absent labels
filling with NaN. -/
def pdConcat (df1 df2 : DataFrame) : DataFrame :=
  ⟨df1.cols ++ df2.cols.filter (fun c => decide (c ∉ df1.cols)),
   df1.rows.map (fun r =>
      reindexRow df1.cols r (df1.cols ++ df2.cols.filter (fun c => decide (c ∉ df1.cols)))) ++
   df2.rows.map (fun r =>
      reindexRow df2.cols r (df1.cols ++ df2.cols.filter (fun c => decide (c ∉ df1.cols))))⟩

/-- Python dict lookup `d.get(k)`: the first matching key of the association
list (keys are unique under `dset`, so first match = the dict entry). -/
def dget [DecidableEq κ] : List (κ × β) → κ → Option β
  | [], _ => none
  | p :: d, k => if p.1 = k then some p.2 else dget d k

/-- Python dict key view `d.keys()` (insertion order). -/
def dkeys (d : List (κ × β)) : List κ := d.map (fun p => p.1)

/-- Python dict assignment `d[k] = v`: overwrite in place, or append when new. -/
def dset [DecidableEq κ] (d : List (κ × β)) (k : κ) (v : β) : List (κ × β) :=
  if (dget d k).isSome then
    d.map (fun p => if p.1 = k then (k, v) else p)
  else d ++ [(k, v)]

/-- `dict.fromkeys(l)` key order: each key at its first occurrence. -/
def pyFromKeys [DecidableEq α] : List α → List α
  | [] => []
  | x :: xs => x :: pyFromKeys (xs.filter (fun y => decide (y ≠ x)))
termination_by l => l.length
decreasing_by
  simp only [List.length_cons]
  exact Nat.lt_succ_of_le (List.length_filter_le _ _)

/-! ### excel_writer.py -/

/-- `MAX_RETRIES = 8`. -/
def MAX_RETRIES : Nat := 8

/-- `SLEEP_SECONDS = 0.75`; the float arithmetic `0.75 * 1.5^k` is exact in
binary floating point for the at most seven sleeps performed, so the delays
are modelled as rationals. -/
def SLEEP_SECONDS : ℚ := 3 / 4

/-- The exceptions a write attempt can raise, split exactly as the
`except PermissionError` clause of `_retry_write` splits them. -/
inductive WriteErr
  | permissionError (msg : String)
  | otherError (msg : String)
deriving DecidableEq, Repr

/-- The loop of `_retry_write` from attempt `i` with current backoff `delay`;
`f i` is the outcome of the `i`-th invocation of `write_fn`.  Returns the
overall result, the sleeps performed (in order), and the attempts made
(in order). -/
def retryGo (f : Nat → Except WriteErr α) (i : Nat) (delay : ℚ) :
    Except WriteErr α × List ℚ × List Nat :=
  match f i with
  | .ok a => (.ok a, [], [i])
  | .error (.permissionError m) =>
    if _h : i < MAX_RETRIES then
      let r := retryGo f (i + 1) (delay * (3 / 2))
      (r.1, delay :: r.2.1, i :: r.2.2)
    else (.error (.permissionError m), [], [i])
  | .error (.otherError m) => (.error (.otherError m), [], [i])
termination_by MAX_RETRIES - i
decreasing_by simp_wf; omega

/-- `_retry_write(write_fn)`: attempts run from `1` to `MAX_RETRIES`. -/
def retry_write (f : Nat → Except WriteErr α) :
    Except WriteErr α × List ℚ × List Nat :=
  retryGo f 1 SLEEP_SECONDS

/-- The geometric backoff schedule: `n` sleeps starting at `d`, ratio `1.5`. -/
def backoffSleeps (d : ℚ) (n : Nat) : List ℚ :=
  (List.range n).map (fun k => d * (3 / 2) ^ k)

/-- `append_clean_data_row`, restricted to its transformation of the
`Clean_Data` sheet.  `cols` is the header of the `Clean_Data` sheet of the
source workbook (`pd.read_excel(src_xlsx, nrows=0).columns`); `existing` is
the sheet read back from the output workbook (`none` when the file does not
exist; a failed read inside the writer yields `some ⟨cols, []⟩`). -/
def cleanDataAppend (cols : List String) (existing : Option DataFrame)
    (row : List (String × String)) : DataFrame :=
  let ordered : List (String × String) := cols.map (fun c => (c, (dget row c).getD ""))
  let newRowDf : DataFrame := ⟨cols, [ordered.map (fun p => some p.2)]⟩
  match existing with
  | some ex => pdConcat ex newRowDf
  | none => newRowDf

/-- `append_cookie_comparison`, restricted to its transformation of the
`Cookie Field Comparison` sheet.  `existing = none` covers both the missing
output file and a failed sheet read (the `except` branch). -/
def cookieComparisonAppend (existing : Option DataFrame)
    (row : List (String × String)) : DataFrame :=
  let dfNew : DataFrame := ⟨dkeys row, [row.map (fun p => some p.2)]⟩
  match existing with
  | some ex =>
    let allCols := pyFromKeys (ex.cols ++ dfNew.cols)
    pdConcat (reindexDF ex allCols) (reindexDF dfNew allCols)
  | none => dfNew

/-! ### runner_chromium_manual.py — target taxonomy and classification -/

/-- `TARGET_ORDER`. -/
def TARGET_ORDER : List String := [
  "NV_MC_LC", "NV_MC_FC", "NV_ECM_TK_LC",
  "__attentive_utm_param_campaign", "__attentive_utm_param_source", "__attentive_utm_param_medium",
  "__attentive_utm_param_term", "__attentive_utm_param_content",
  "campaign", "campaign_id", "campaign_date", "campaign_source", "campaign_medium", "campaign_name",
  "utm_source", "utm_medium", "utm_campaign", "utm_term", "utm_content",
  "affid", "aff_id", "affiliate", "affiliate_id", "affiliate_source", "affsource", "aff_source", "affname",
  "aff_sub", "aff_sub2", "aff_sub3", "aff_sub4", "aff_sub5", "subid", "sub_id",
  "awinaffid", "awcid", "awcr", "aw_referrer", "aw_click_id",
  "cjevent", "cjData",
  "irclickid", "irgwc", "irpid", "iradid", "iradname",
  "sscid", "scid",
  "prms", "prm_expid", "prm_click",
  "gclid", "gclsrc", "dclid", "fbclid", "msclkid", "ttclid", "twclid", "yclid",
  "_ga", "_ga_*", "_gid", "_gat", "_gat_*", "_gcl_au", "_gcl_aw", "_gcl_dc",
  "_fbp", "_fbc", "_uetsid", "_uetvid", "_tt_enable_cookie", "_ttp", "_pin_unauth", "_rdt_uuid",
  "AMCV_", "s_cc", "s_sq", "mbox", "mboxEdgeCluster",
  "ref", "referrer", "source", "campaignCode", "promo", "promocode", "coupon", "coupon_code",
  "session_id", "sessionid", "sid"]

/-- Python `str.lower()` restricted to ASCII (all compared names are ASCII),
written character-wise so that proofs can evaluate it. -/
def strLower (s : String) : String := ⟨s.data.map Char.toLower⟩

/-- Python `s.startswith(p)`. -/
def strStartsWith (s p : String) : Bool := p.data.isPrefixOf s.data

/-- Python `s.endswith(x)`. -/
def strEndsWith (s x : String) : Bool := x.data.isSuffixOf s.data

/-- Python `s[:-1]`. -/
def strDropRightOne (s : String) : String := ⟨s.data.dropLast⟩

/-- Code-point lexicographic order on character lists (Python string `<=`). -/
def charsLe : List Char → List Char → Bool
  | [], _ => true
  | _ :: _, [] => false
  | a :: as, b :: bs => if a = b then charsLe as bs else decide (a.toNat < b.toNat)

/-- Python string comparison used by `sorted(..., key=lambda x: x.lower())`. -/
def strLe (a b : String) : Bool := charsLe a.data b.data

/-- `_CANON = {n.lower(): n for n in TARGET_ORDER if not n.endswith("*")}`
(the lowercased exact names are pairwise distinct, so first-match lookup on
this association list agrees with the Python dict). -/
def CANON : List (String × String) :=
  (TARGET_ORDER.filter (fun n => !(strEndsWith n "*"))).map (fun n => (strLower n, n))

/-- `_PREFIXES = [n[:-1].lower() for n in TARGET_ORDER if n.endswith("*")]`. -/
def PREFIXES : List String :=
  (TARGET_ORDER.filter (fun n => strEndsWith n "*")).map
    (fun n => strLower (strDropRightOne n))

/-- `_is_target_name(n)`.  The argument is `Option String` because callers
pass `None`-able names; Python's `if not n` rejects both `None` and `""`. -/
def isTargetName : Option String → Option String
  | none => none
  | some s =>
    if s = "" then none
    else
      match dget CANON (strLower s) with
      | some canon => some canon
      | none =>
        match PREFIXES.find? (fun p => strStartsWith (strLower s) p) with
        | some _ => some s
        | none => none

/-! ### Cookie frames, identity keys and snapshots -/

/-- The record built by `_cookie_frame_full` from a raw Selenium cookie dict:
`value` is already defaulted to `""` and `value_hash` is the 16-hex-character
truncated SHA-256 of the value (kept abstract here: the diff logic only ever
compares hashes for equality). -/
structure CookieFrame where
  name : Option String
  value : String
  valueHash : String
  domain : Option String
  path : Option String
  expiry : Option Int
  httpOnly : Option Bool
  secure : Option Bool
  sameSite : Option String
deriving DecidableEq, Repr

/-- Frame with only the diff-relevant fields populated (the remaining raw
cookie attributes are never read by the diff/report logic). -/
def simpleFrame (name domain path : Option String) (value valueHash : String) :
    CookieFrame :=
  ⟨name, value, valueHash, domain, path, none, none, none, none⟩

/-- `key(c) = (c["name"], c["domain"], c["path"])`. -/
abbrev CookieKey := Option String × Option String × Option String

/-- Identity key of a frame. -/
def cookieKey (c : CookieFrame) : CookieKey := (c.name, c.domain, c.path)

/-- `{key(c): c for c in cookies}` — Python dict comprehension, so a later
cookie with the same identity overwrites an earlier one. -/
def buildKeyMap (cs : List CookieFrame) : List (CookieKey × CookieFrame) :=
  cs.foldl (fun d c => dset d (cookieKey c) c) []

/-- `_snapshot_targets(cookies)`: the per-snapshot canonical-key → value/hash
dict; `h` stands for the truncated-SHA-256 digest `_h`. -/
def snapshotTargets (h : String → String) (cs : List CookieFrame) :
    List (String × (String × String)) :=
  cs.foldl (fun out c =>
    match isTargetName (some ((c.name.getD ""))) with
    | some canon => dset out canon (c.value, h c.value)
    | none => out) []

/-! ### Diff sets (`goto_comparison_and_write`, lines 438–459) -/

/-- `bmap.keys()` / `amap.keys()` as a finite set. -/
def keySet (cs : List CookieFrame) : Finset CookieKey := (cs.map cookieKey).toFinset

/-- `amap.keys() - bmap.keys()`: identities present only after. -/
def addedKeys (before after : List CookieFrame) : Finset CookieKey :=
  keySet after \ keySet before

/-- `bmap.keys() - amap.keys()`: identities present only before. -/
def removedKeys (before after : List CookieFrame) : Finset CookieKey :=
  keySet before \ keySet after

/-- `amap.keys() & bmap.keys()`. -/
def commonKeys (before after : List CookieFrame) : Finset CookieKey :=
  keySet after ∩ keySet before

/-- Identities in both snapshots with `amap[k]["value_hash"] != bmap[k]["value_hash"]`. -/
def changedKeys (before after : List CookieFrame) : Finset CookieKey :=
  (commonKeys before after).filter (fun k =>
    (dget (buildKeyMap after) k).map CookieFrame.valueHash ≠
      (dget (buildKeyMap before) k).map CookieFrame.valueHash)

/-- Identities in both snapshots whose value hash did not change (everything
in the union that is neither added, removed nor changed). -/
def unchangedKeys (before after : List CookieFrame) : Finset CookieKey :=
  (commonKeys before after).filter (fun k =>
    (dget (buildKeyMap after) k).map CookieFrame.valueHash =
      (dget (buildKeyMap before) k).map CookieFrame.valueHash)

/-- `changed_names`: names of identities that were added, removed or changed
(the code reads the name out of `amap[k]` / `bmap[k]`, which is the first
component of the identity key itself). -/
def changedNames (before after : List CookieFrame) : Finset (Option String) :=
  (addedKeys before after ∪ removedKeys before after ∪ changedKeys before after).image
    (fun k => k.1)

/-! ### Wide comparison row (`run_one` / `goto_comparison_and_write`) -/

/-- `prefix = f"{ext_ordinal}." if ext_ordinal else ""` from `run_one`. -/
def ordinalPfx (ordinal : Int) : String :=
  if ordinal ≠ 0 then toString ordinal ++ "." else ""

/-- `val_before` / `val_after`: the wide-row cell for target canonical key
`name` given that snapshot's target dict — the ordinal text is prepended
whenever the key is present, the absent key renders as `""`. -/
def valFromTargets (pfx : String) (targets : List (String × (String × String)))
    (name : String) : String :=
  if (dget targets name).isSome then pfx ++ ((dget targets name).map Prod.fst).getD ""
  else ""

/-- `_sanitize_cookie_name`. -/
def sanitizeCookieName : Option String → String
  | none => "Cookie:UNKNOWN"
  | some s =>
    let safe := (((s.replace "\r" " ").replace "\n" " ").replace "\t" " ").trim
    if safe.startsWith "Cookie:" then safe else "Cookie:" ++ safe

/-- `_before_key`. -/
def beforeKey (n : Option String) : String := sanitizeCookieName n ++ " (Before)"

/-- `_after_key`. -/
def afterKey (n : Option String) : String := sanitizeCookieName n ++ " (After)"

/-- Insertion sort (Python `sorted` — ordering is irrelevant to the stated
claims, only membership is). -/
def insertSorted (le : α → α → Bool) (a : α) : List α → List α
  | [] => [a]
  | x :: xs => if le a x then a :: x :: xs else x :: insertSorted le a xs

/-- Sort a list with a boolean comparison. -/
def sortByLe (le : α → α → Bool) (l : List α) : List α :=
  l.foldr (insertSorted le) []

/-- `sorted(before_targets.keys() | after_targets.keys(), key=lambda x: x.lower())`:
the target canonical keys that receive a Before/After column pair. -/
def wideTargetBases (h : String → String) (before after : List CookieFrame) :
    List String :=
  sortByLe (fun a b => strLe (strLower a) (strLower b))
    (pyFromKeys (dkeys (snapshotTargets h before) ++ dkeys (snapshotTargets h after)))

/-- The identity keys of a snapshot's map, in insertion order
(`bmap.keys()` as a list). -/
def keyList (cs : List CookieFrame) : List CookieKey := dkeys (buildKeyMap cs)

/-- Executable enumeration of `changed_names` (the set built at lines
442–446): names of added, removed and hash-changed identities, each once. -/
def changedNamesList (before after : List CookieFrame) : List (Option String) :=
  pyFromKeys
    (((keyList after).filter (fun k => decide (k ∉ keyList before)) ++
      (keyList before).filter (fun k => decide (k ∉ keyList after)) ++
      (keyList after).filter (fun k =>
        decide (k ∈ keyList before) &&
        decide ((dget (buildKeyMap after) k).map CookieFrame.valueHash ≠
          (dget (buildKeyMap before) k).map CookieFrame.valueHash))).map
      (fun k => k.1))

/-- The changed-cookie loop over `sorted(changed_names, ...)` minus the
`if _is_target_name(name): continue` skips: the non-target cookie names that
receive a dynamic Before/After column pair. -/
def wideNonTargetNames (before after : List CookieFrame) : List (Option String) :=
  (sortByLe (fun a b => strLe (strLower (a.getD "")) (strLower (b.getD "")))
      (changedNamesList before after)).filter
    (fun n => (isTargetName n).isNone)

/-! ### Navigation observer (`_observe_redirect_refresh_and_tabs`) -/

/-- One discovered tab: `{"title": ..., "url": ...}`. -/
structure TabInfo where
  title : String
  url : String
deriving DecidableEq, Repr

/-- What the browser yields during one iteration of the polling loop: the
tabs whose handles were not seen before (in discovery order), the current
URL of the original window (`""` when the read raised), and the navigation
marker (`none` when `_get_nav_marker` returned `None`). -/
structure Tick where
  newTabs : List TabInfo
  currUrl : String
  navTs : Option ℚ
deriving DecidableEq, Repr

/-- Loop state: `(redirect_url, refreshed, new_tabs)`. -/
abbrev ObsState := String × Bool × List TabInfo

/-- One iteration of the polling loop body. -/
def observeStep (preUrl : String) (preNavTs : Option ℚ) (st : ObsState)
    (t : Tick) : ObsState :=
  let tabs := st.2.2 ++ t.newTabs
  let redirect :=
    if t.currUrl ≠ "" ∧ preUrl ≠ "" ∧ t.currUrl ≠ preUrl ∧ st.1 = "" then t.currUrl
    else st.1
  let navChanged : Bool :=
    match t.navTs, preNavTs with
    | some nav, some pre => decide (nav ≠ pre)
    | _, _ => false
  let refreshed :=
    if navChanged ∧ redirect = "" ∧ t.currUrl = preUrl then true
    else st.2.1
  (redirect, refreshed, tabs)

/-- `_observe_redirect_refresh_and_tabs`, with the bounded polling window
abstracted as the finite list of ticks it performs; returns
`(redirect_url, refreshed, new_tabs)` including the post-loop promotion of
the first new tab's URL. -/
def observeRedirectRefreshAndTabs (preUrl : String) (preNavTs : Option ℚ)
    (ticks : List Tick) : ObsState :=
  let st := ticks.foldl (observeStep preUrl preNavTs) ("", false, [])
  let redirect :=
    if st.1 = "" ∧ st.2.2 ≠ [] then ((st.2.2.head?.map TabInfo.url).getD "") else st.1
  (redirect, st.2.1, st.2.2)

/-- The first tick whose current URL is non-empty and differs from `preUrl`. -/
def firstDiffering (preUrl : String) (ticks : List Tick) : Option Tick :=
  ticks.find? (fun t => t.currUrl ≠ "" && t.currUrl ≠ preUrl)

/-- All tabs discovered over the window, in discovery order. -/
def allTabs (ticks : List Tick) : List TabInfo := ticks.flatMap Tick.newTabs

/-- `Prop`-level helper: exactly the first / second / third / fourth of four
alternatives holds. -/
def ExactlyOneOfFour (p q r s : Prop) : Prop :=
  (p ∧ ¬q ∧ ¬r ∧ ¬s) ∨ (¬p ∧ q ∧ ¬r ∧ ¬s) ∨
  (¬p ∧ ¬q ∧ r ∧ ¬s) ∨ (¬p ∧ ¬q ∧ ¬r ∧ s)

/-! ### Library lemmas about the dict / DataFrame helpers -/

theorem dkeys_cons (p : κ × β) (d : List (κ × β)) :
    dkeys (p :: d) = p.1 :: dkeys d := rfl

theorem dget_isSome_iff_mem_dkeys [DecidableEq κ] (d : List (κ × β)) (k : κ) :
    (dget d k).isSome ↔ k ∈ dkeys d := by
  induction d with
  | nil => simp [dget, dkeys]
  | cons p d ih =>
    rw [dkeys_cons, List.mem_cons]
    by_cases h : p.1 = k
    · simp [dget, h]
    · rw [dget, if_neg h, ih]
      constructor
      · exact fun hm => Or.inr hm
      · rintro (hk | hm)
        · exact absurd hk.symm h
        · exact hm

theorem dget_append [DecidableEq κ] (d₁ d₂ : List (κ × β)) (k : κ) :
    dget (d₁ ++ d₂) k = (dget d₁ k).or (dget d₂ k) := by
  induction d₁ with
  | nil => simp [dget, Option.or]
  | cons p d ih =>
    by_cases h : p.1 = k
    · simp [dget, h, Option.or]
    · simp [dget, h, ih]

theorem dget_map_overwrite_ne [DecidableEq κ] (d : List (κ × β)) (k k' : κ)
    (v : β) (h : k' ≠ k) :
    dget (d.map (fun p => if p.1 = k then (k, v) else p)) k' = dget d k' := by
  induction d with
  | nil => simp [dget]
  | cons p d ih =>
    by_cases hp : p.1 = k
    · rw [List.map_cons, if_pos hp, dget, dget, if_neg (fun hh => h hh.symm),
        if_neg (by rw [hp]; exact fun hh => h hh.symm), ih]
    · rw [List.map_cons, if_neg hp, dget, dget, ih]

theorem dget_map_overwrite_self [DecidableEq κ] (d : List (κ × β)) (k : κ)
    (v : β) (hs : (dget d k).isSome) :
    dget (d.map (fun p => if p.1 = k then (k, v) else p)) k = some v := by
  induction d with
  | nil => simp [dget] at hs
  | cons p d ih =>
    by_cases hp : p.1 = k
    · rw [List.map_cons, if_pos hp, dget, if_pos rfl]
    · rw [dget, if_neg hp] at hs
      rw [List.map_cons, if_neg hp, dget, if_neg hp, ih hs]

theorem dget_dset_self [DecidableEq κ] (d : List (κ × β)) (k : κ) (v : β) :
    dget (dset d k v) k = some v := by
  unfold dset
  split
  · next hs => exact dget_map_overwrite_self d k v hs
  · next hs =>
    rw [dget_append]
    have hnone : dget d k = none := by
      cases h : dget d k with
      | none => rfl
      | some x => rw [h] at hs; simp at hs
    rw [hnone]
    simp [dget, Option.or]

theorem dget_dset_ne [DecidableEq κ] (d : List (κ × β)) (k k' : κ) (v : β)
    (h : k' ≠ k) : dget (dset d k v) k' = dget d k' := by
  unfold dset
  split
  · exact dget_map_overwrite_ne d k k' v h
  · rw [dget_append]
    have hone : dget [(k, v)] k' = none := by
      rw [dget, if_neg (fun hh => h hh.symm)]
      rfl
    rw [hone]
    cases dget d k' <;> simp [Option.or]

theorem getLast?_cons_or (a : α) (l : List α) :
    (a :: l).getLast? = (l.getLast?).or (some a) := by
  induction l generalizing a with
  | nil => rfl
  | cons b l ih =>
    rw [List.getLast?_cons_cons, ih b]
    cases h : l.getLast? <;> simp [Option.or]

theorem mem_pyFromKeys [DecidableEq α] (l : List α) (a : α) :
    a ∈ pyFromKeys l ↔ a ∈ l := by
  have H : ∀ (n : Nat) (l : List α), l.length ≤ n → (a ∈ pyFromKeys l ↔ a ∈ l) := by
    intro n
    induction n with
    | zero =>
      intro l hl
      rw [Nat.le_zero, List.length_eq_zero] at hl
      subst hl
      simp [pyFromKeys]
    | succ n ih =>
      intro l hl
      cases l with
      | nil => simp [pyFromKeys]
      | cons x xs =>
        rw [pyFromKeys]
        by_cases hax : a = x
        · simp [hax]
        · have hlen : (xs.filter (fun y => decide (y ≠ x))).length ≤ n :=
            le_trans (List.length_filter_le _ _)
              (Nat.lt_succ_iff.mp (lt_of_lt_of_le (by simp) hl))
          rw [List.mem_cons, ih _ hlen, List.mem_cons]
          simp [hax, List.mem_filter]
  exact H l.length l le_rfl

theorem pyFromKeys_nodup_id [DecidableEq α] (l : List α) (h : l.Nodup) :
    pyFromKeys l = l := by
  have H : ∀ (n : Nat) (l : List α), l.length ≤ n → l.Nodup → pyFromKeys l = l := by
    intro n
    induction n with
    | zero =>
      intro l hl _
      rw [Nat.le_zero, List.length_eq_zero] at hl
      subst hl
      simp [pyFromKeys]
    | succ n ih =>
      intro l hl hnd
      cases l with
      | nil => simp [pyFromKeys]
      | cons x xs =>
        rw [pyFromKeys]
        have hx : x ∉ xs := (List.nodup_cons.mp hnd).1
        have hfil : xs.filter (fun y => decide (y ≠ x)) = xs := by
          apply List.filter_eq_self.mpr
          intro b hb
          simp only [decide_eq_true_eq]
          exact fun hbx => hx (hbx ▸ hb)
        rw [hfil, ih xs (Nat.lt_succ_iff.mp (lt_of_lt_of_le (by simp) hl))
          ((List.nodup_cons.mp hnd).2)]
  exact H l.length l le_rfl h

theorem pyFromKeys_append_nodup [DecidableEq α] (xs : List α) (h : xs.Nodup) :
    ∀ ys : List α,
      pyFromKeys (xs ++ ys) = xs ++ pyFromKeys (ys.filter (fun y => decide (y ∉ xs))) := by
  induction xs with
  | nil =>
    intro ys
    simp
  | cons x xs ih =>
    intro ys
    rw [List.cons_append, pyFromKeys]
    have hx : x ∉ xs := (List.nodup_cons.mp h).1
    rw [List.filter_append]
    have hfx : List.filter (fun y => decide (y ≠ x)) xs = xs := by
      apply List.filter_eq_self.mpr
      intro b hb
      simp only [decide_eq_true_eq]
      exact fun hbx => hx (hbx ▸ hb)
    rw [hfx, ih (List.nodup_cons.mp h).2 (ys.filter (fun y => decide (y ≠ x)))]
    rw [List.filter_filter]
    have heq : List.filter (fun a => decide (a ∉ xs) && decide (a ≠ x)) ys =
        List.filter (fun y => decide (y ∉ x :: xs)) ys := by
      apply List.filter_congr
      intro y _
      by_cases h1 : y = x <;> by_cases h2 : y ∈ xs <;> simp [h1, h2]
    rw [heq, List.cons_append]

/-! ### Lemmas about the snapshot maps -/

theorem buildKeyMap_go (cs : List CookieFrame) :
    ∀ (d : List (CookieKey × CookieFrame)) (k : CookieKey),
      dget (cs.foldl (fun d c => dset d (cookieKey c) c) d) k =
        ((cs.filter (fun c => decide (cookieKey c = k))).getLast?).or (dget d k) := by
  induction cs with
  | nil =>
    intro d k
    simp [Option.or]
  | cons c cs ih =>
    intro d k
    rw [List.foldl_cons, ih (dset d (cookieKey c) c) k]
    by_cases hck : cookieKey c = k
    · rw [List.filter_cons_of_pos (by simp [hck]), getLast?_cons_or]
      rw [hck, dget_dset_self]
      cases (cs.filter (fun c => decide (cookieKey c = k))).getLast? <;> simp [Option.or]
    · rw [List.filter_cons_of_neg (by simp [hck]),
        dget_dset_ne d (cookieKey c) k c (fun hh => hck hh.symm)]

theorem dget_buildKeyMap (cs : List CookieFrame) (k : CookieKey) :
    dget (buildKeyMap cs) k =
      (cs.filter (fun c => decide (cookieKey c = k))).getLast? := by
  rw [buildKeyMap, buildKeyMap_go cs [] k]
  cases (cs.filter (fun c => decide (cookieKey c = k))).getLast? <;> simp [dget, Option.or]

theorem snapshotTargets_go (h : String → String) (cs : List CookieFrame) :
    ∀ (d : List (String × (String × String))) (name : String),
      dget (cs.foldl (fun out c =>
          match isTargetName (some ((c.name.getD ""))) with
          | some canon => dset out canon (c.value, h c.value)
          | none => out) d) name =
        (((cs.filter (fun c =>
            decide (isTargetName (some (c.name.getD "")) = some name))).getLast?).map
          (fun c => (c.value, h c.value))).or (dget d name) := by
  induction cs with
  | nil =>
    intro d name
    simp [Option.or]
  | cons c cs ih =>
    intro d name
    rw [List.foldl_cons]
    cases hcl : isTargetName (some ((c.name.getD ""))) with
    | none =>
      rw [List.filter_cons_of_neg (by simp [hcl])]
      exact ih d name
    | some canon =>
      by_cases hcn : canon = name
      · rw [List.filter_cons_of_pos (by simp [hcl, hcn]), getLast?_cons_or, ih _ name,
          hcn, dget_dset_self]
        cases (cs.filter (fun c =>
            decide (isTargetName (some (c.name.getD "")) = some name))).getLast? <;>
          simp [Option.or]
      · rw [List.filter_cons_of_neg (by simp [hcl, hcn]), ih _ name,
          dget_dset_ne d canon name _ (fun hh => hcn hh.symm)]

theorem dget_snapshotTargets (h : String → String) (cs : List CookieFrame)
    (name : String) :
    dget (snapshotTargets h cs) name =
      ((cs.filter (fun c =>
          decide (isTargetName (some (c.name.getD "")) = some name))).getLast?).map
        (fun c => (c.value, h c.value)) := by
  rw [snapshotTargets, snapshotTargets_go h cs [] name]
  cases (cs.filter (fun c =>
      decide (isTargetName (some (c.name.getD "")) = some name))).getLast? <;>
    simp [dget, Option.or]

theorem mem_keyList (cs : List CookieFrame) (k : CookieKey) :
    k ∈ keyList cs ↔ ∃ c ∈ cs, cookieKey c = k := by
  rw [keyList, ← dget_isSome_iff_mem_dkeys, dget_buildKeyMap, List.getLast?_isSome]
  constructor
  · intro hne
    obtain ⟨c, hc⟩ := List.exists_mem_of_ne_nil _ hne
    exact ⟨c, (List.mem_filter.mp hc).1, by simpa using (List.mem_filter.mp hc).2⟩
  · rintro ⟨c, hcs, hck⟩ hnil
    have hmem : c ∈ cs.filter (fun c => decide (cookieKey c = k)) :=
      List.mem_filter.mpr ⟨hcs, by simpa using hck⟩
    rw [hnil] at hmem
    exact absurd hmem (List.not_mem_nil c)

theorem mem_keySet (cs : List CookieFrame) (k : CookieKey) :
    k ∈ keySet cs ↔ ∃ c ∈ cs, cookieKey c = k := by
  simp [keySet]

theorem keyList_iff_keySet (cs : List CookieFrame) (k : CookieKey) :
    k ∈ keyList cs ↔ k ∈ keySet cs := by
  rw [mem_keyList, mem_keySet]

theorem mem_dkeys_snapshotTargets (h : String → String) (cs : List CookieFrame)
    (name : String) :
    name ∈ dkeys (snapshotTargets h cs) ↔
      ∃ c ∈ cs, isTargetName (some (c.name.getD "")) = some name := by
  rw [← dget_isSome_iff_mem_dkeys, dget_snapshotTargets, Option.isSome_map',
    List.getLast?_isSome]
  constructor
  · intro hne
    obtain ⟨c, hc⟩ := List.exists_mem_of_ne_nil _ hne
    exact ⟨c, (List.mem_filter.mp hc).1, by simpa using (List.mem_filter.mp hc).2⟩
  · rintro ⟨c, hcs, hck⟩ hnil
    have hmem : c ∈ cs.filter (fun c =>
        decide (isTargetName (some (c.name.getD "")) = some name)) :=
      List.mem_filter.mpr ⟨hcs, by simpa using hck⟩
    rw [hnil] at hmem
    exact absurd hmem (List.not_mem_nil c)

theorem mem_insertSorted (le : α → α → Bool) (a b : α) (l : List α) :
    b ∈ insertSorted le a l ↔ b = a ∨ b ∈ l := by
  induction l with
  | nil => simp [insertSorted]
  | cons x xs ih =>
    rw [insertSorted]
    split
    · simp
    · rw [List.mem_cons, ih, List.mem_cons]
      tauto

theorem mem_sortByLe (le : α → α → Bool) (l : List α) (a : α) :
    a ∈ sortByLe le l ↔ a ∈ l := by
  induction l with
  | nil => simp [sortByLe]
  | cons x xs ih =>
    rw [sortByLe, List.foldr_cons, mem_insertSorted]
    rw [show xs.foldr (insertSorted le) [] = sortByLe le xs from rfl]
    rw [ih, List.mem_cons]

/-! ### Lemmas about the retry loop -/

theorem backoffSleeps_succ (d : ℚ) (n : Nat) :
    backoffSleeps d (n + 1) = d :: backoffSleeps (d * (3 / 2)) n := by
  rw [backoffSleeps, backoffSleeps, List.range_succ_eq_map, List.map_cons, List.map_map]
  congr 1
  · norm_num
  · apply List.map_congr_left
    intro k _
    simp only [Function.comp]
    rw [pow_succ]
    ring

theorem retryGo_all_permission (f : Nat → Except WriteErr α) :
    ∀ (n i : Nat) (d : ℚ), i + n = MAX_RETRIES →
      (∀ t, i ≤ t → t ≤ MAX_RETRIES → ∃ m, f t = .error (.permissionError m)) →
      retryGo f i d = (f MAX_RETRIES, backoffSleeps d n, List.range' i (n + 1)) := by
  intro n
  induction n with
  | zero =>
    intro i d hi hperm
    obtain ⟨m, hm⟩ := hperm i le_rfl (by omega)
    have hieq : i = MAX_RETRIES := by omega
    subst hieq
    rw [retryGo.eq_def, hm]
    dsimp only
    rw [dif_neg (by omega)]
    rfl
  | succ n ih =>
    intro i d hi hperm
    obtain ⟨m, hm⟩ := hperm i le_rfl (by omega)
    rw [retryGo.eq_def, hm]
    dsimp only
    rw [dif_pos (by omega)]
    rw [ih (i + 1) (d * (3 / 2)) (by omega) (fun t ht1 ht2 => hperm t (by omega) ht2)]
    rw [backoffSleeps_succ]
    rfl

theorem retryGo_stops (f : Nat → Except WriteErr α) :
    ∀ (n i : Nat) (d : ℚ), i + n ≤ MAX_RETRIES →
      (∀ t, i ≤ t → t < i + n → ∃ m, f t = .error (.permissionError m)) →
      (∀ m, f (i + n) ≠ .error (.permissionError m)) →
      retryGo f i d = (f (i + n), backoffSleeps d n, List.range' i (n + 1)) := by
  intro n
  induction n with
  | zero =>
    intro i d hle hperm hstop
    show retryGo f i d = (f i, [], [i])
    cases hf : f i with
    | ok a =>
      rw [retryGo.eq_def, hf]
    | error e =>
      cases e with
      | permissionError m => exact absurd hf (hstop m)
      | otherError m =>
        rw [retryGo.eq_def, hf]
  | succ n ih =>
    intro i d hle hperm hstop
    obtain ⟨m, hm⟩ := hperm i le_rfl (by omega)
    rw [retryGo.eq_def, hm]
    dsimp only
    rw [dif_pos (by omega)]
    have harg : i + 1 + n = i + (n + 1) := by omega
    rw [ih (i + 1) (d * (3 / 2)) (by omega)
      (fun t ht1 ht2 => hperm t (by omega) (by omega))
      (fun mm => by rw [harg]; exact hstop mm)]
    rw [backoffSleeps_succ, harg]
    rfl

/-! ### Lemmas about the navigation observer -/

theorem observeStep_tabs (preUrl : String) (preNavTs : Option ℚ) (st : ObsState)
    (t : Tick) : (observeStep preUrl preNavTs st t).2.2 = st.2.2 ++ t.newTabs := rfl

theorem observe_fold_tabs (preUrl : String) (preNavTs : Option ℚ) :
    ∀ (ticks : List Tick) (st : ObsState),
      (ticks.foldl (observeStep preUrl preNavTs) st).2.2 = st.2.2 ++ allTabs ticks := by
  intro ticks
  induction ticks with
  | nil =>
    intro st
    simp [allTabs]
  | cons t ts ih =>
    intro st
    rw [List.foldl_cons, ih, observeStep_tabs]
    simp [allTabs]

theorem observe_fold_redirect_ne (preUrl : String) (preNavTs : Option ℚ) :
    ∀ (ticks : List Tick) (st : ObsState), st.1 ≠ "" →
      (ticks.foldl (observeStep preUrl preNavTs) st).1 = st.1 := by
  intro ticks
  induction ticks with
  | nil =>
    intro st _
    rfl
  | cons t ts ih =>
    intro st hst
    rw [List.foldl_cons]
    have hstep : (observeStep preUrl preNavTs st t).1 = st.1 := by
      dsimp only [observeStep]
      rw [if_neg (fun hc => hst hc.2.2.2)]
    rw [ih _ (by rw [hstep]; exact hst), hstep]

theorem observe_fold_redirect_pre_empty (preNavTs : Option ℚ) :
    ∀ (ticks : List Tick) (st : ObsState),
      (ticks.foldl (observeStep "" preNavTs) st).1 = st.1 := by
  intro ticks
  induction ticks with
  | nil =>
    intro st
    rfl
  | cons t ts ih =>
    intro st
    rw [List.foldl_cons]
    have hstep : (observeStep "" preNavTs st t).1 = st.1 := by
      dsimp only [observeStep]
      rw [if_neg (fun hc => hc.2.1 rfl)]
    rw [ih _, hstep]

theorem observe_fold_redirect_empty (preUrl : String) (preNavTs : Option ℚ)
    (hpre : preUrl ≠ "") :
    ∀ (ticks : List Tick) (st : ObsState), st.1 = "" →
      (ticks.foldl (observeStep preUrl preNavTs) st).1 =
        (match firstDiffering preUrl ticks with
         | some t => t.currUrl
         | none => "") := by
  intro ticks
  induction ticks with
  | nil =>
    intro st hst
    simp [firstDiffering, hst]
  | cons t ts ih =>
    intro st hst
    rw [List.foldl_cons]
    by_cases h1 : t.currUrl = ""
    · have hstep : (observeStep preUrl preNavTs st t).1 = st.1 := by
        dsimp only [observeStep]
        rw [if_neg (fun hc => hc.1 h1)]
      rw [ih _ (by rw [hstep, hst])]
      simp only [firstDiffering]
      rw [List.find?_cons_of_neg _ (by simp [h1])]
    · by_cases h2 : t.currUrl = preUrl
      · have hstep : (observeStep preUrl preNavTs st t).1 = st.1 := by
          dsimp only [observeStep]
          rw [if_neg (fun hc => hc.2.2.1 h2)]
        rw [ih _ (by rw [hstep, hst])]
        simp only [firstDiffering]
        rw [List.find?_cons_of_neg _ (by simp [h2])]
      · have hstep : (observeStep preUrl preNavTs st t).1 = t.currUrl := by
          dsimp only [observeStep]
          rw [if_pos ⟨h1, hpre, h2, hst⟩]
        rw [observe_fold_redirect_ne preUrl preNavTs ts _ (by rw [hstep]; exact h1), hstep]
        simp only [firstDiffering]
        rw [List.find?_cons_of_pos _ (by simp [h1, h2])]

/-! ### Lemmas about the DataFrame operations -/

theorem idxOf?_eq_none [DecidableEq α] (l : List α) (a : α) (h : a ∉ l) :
    idxOf? l a = none := by
  induction l with
  | nil => rfl
  | cons x xs ih =>
    rw [idxOf?, if_neg (fun hx => h (by rw [← hx]; exact List.mem_cons_self x xs)),
      ih (fun hm => h (List.mem_cons_of_mem x hm))]
    rfl

theorem reindexRow_length (srcCols : List String) (row : List Cell)
    (cols : List String) : (reindexRow srcCols row cols).length = cols.length := by
  simp [reindexRow]

theorem reindexRow_append (srcCols : List String) (row : List Cell)
    (c1 c2 : List String) :
    reindexRow srcCols row (c1 ++ c2) =
      reindexRow srcCols row c1 ++ reindexRow srcCols row c2 := by
  simp [reindexRow]

theorem reindexRow_self (cols : List String) (row : List Cell)
    (hnd : cols.Nodup) (hl : row.length = cols.length) :
    reindexRow cols row cols = row := by
  induction cols generalizing row with
  | nil =>
    rw [List.length_nil, List.length_eq_zero] at hl
    subst hl
    rfl
  | cons c cols ih =>
    cases row with
    | nil => simp at hl
    | cons r row =>
      have hc : c ∉ cols := (List.nodup_cons.mp hnd).1
      rw [reindexRow, List.map_cons]
      rw [idxOf?, if_pos rfl]
      congr 1
      have hcong : ∀ x ∈ cols,
          (match idxOf? (c :: cols) x with
           | some i => (r :: row).getD i none
           | none => none) =
          (match idxOf? cols x with
           | some i => row.getD i none
           | none => none) := by
        intro x hx
        rw [idxOf?, if_neg (fun he => hc (by rw [he]; exact hx))]
        cases h : idxOf? cols x with
        | none => rfl
        | some i => rfl
      rw [List.map_congr_left hcong]
      exact ih row ((List.nodup_cons.mp hnd).2) (by simpa using hl)

theorem reindexCell_dget (row : List (String × String)) (c : String) :
    (match idxOf? (dkeys row) c with
     | some i => (row.map (fun p => some p.2)).getD i none
     | none => none) = dget row c := by
  induction row with
  | nil => rfl
  | cons p row ih =>
    by_cases hp : p.1 = c
    · rw [dkeys_cons, idxOf?, if_pos hp, dget, if_pos hp]
      rfl
    · rw [dkeys_cons, idxOf?, if_neg hp, dget, if_neg hp, ← ih]
      cases h : idxOf? (dkeys row) c with
      | none => rfl
      | some i => rfl

theorem reindexRow_assoc (row : List (String × String)) (cols : List String) :
    reindexRow (dkeys row) (row.map (fun p => some p.2)) cols =
      cols.map (fun c => dget row c) := by
  unfold reindexRow
  apply List.map_congr_left
  intro c _
  exact reindexCell_dget row c

theorem map_reindexRow_self (rows : List (List Cell)) (cols : List String)
    (hnd : cols.Nodup) (hlen : ∀ r ∈ rows, r.length = cols.length) :
    rows.map (fun r => reindexRow cols r cols) = rows := by
  conv_rhs => rw [← List.map_id rows]
  apply List.map_congr_left
  intro r hr
  rw [reindexRow_self cols r hnd (hlen r hr)]
  rfl

theorem pdConcat_self_cols (nc : List String) (rows1 rows2 : List (List Cell))
    (hnd : nc.Nodup) (h1 : ∀ r ∈ rows1, r.length = nc.length)
    (h2 : ∀ r ∈ rows2, r.length = nc.length) :
    pdConcat ⟨nc, rows1⟩ ⟨nc, rows2⟩ = ⟨nc, rows1 ++ rows2⟩ := by
  unfold pdConcat
  dsimp only
  have hfil : nc.filter (fun c => decide (c ∉ nc)) = [] :=
    List.filter_eq_nil.mpr (fun x hx => by
      simp only [decide_eq_true_eq, not_not]
      exact hx)
  rw [hfil, List.append_nil, map_reindexRow_self rows1 nc hnd h1,
    map_reindexRow_self rows2 nc hnd h2]

theorem cookieComparisonAppend_spec (ex : DataFrame) (row : List (String × String))
    (hnd : ex.cols.Nodup)
    (hrk : (dkeys row).Nodup) :
    cookieComparisonAppend (some ex) row =
      ⟨ex.cols ++ (dkeys row).filter (fun c => decide (c ∉ ex.cols)),
       ex.rows.map (fun r =>
         reindexRow ex.cols r
           (ex.cols ++ (dkeys row).filter (fun c => decide (c ∉ ex.cols)))) ++
       [(ex.cols ++ (dkeys row).filter (fun c => decide (c ∉ ex.cols))).map
         (fun c => dget row c)]⟩ := by
  unfold cookieComparisonAppend
  dsimp only
  have hall : pyFromKeys (ex.cols ++ dkeys row) =
      ex.cols ++ (dkeys row).filter (fun c => decide (c ∉ ex.cols)) := by
    rw [pyFromKeys_append_nodup ex.cols hnd (dkeys row),
      pyFromKeys_nodup_id _ (List.Nodup.filter _ hrk)]
  rw [hall]
  have hncnd : (ex.cols ++ (dkeys row).filter (fun c => decide (c ∉ ex.cols))).Nodup := by
    refine List.Nodup.append hnd (List.Nodup.filter _ hrk) ?_
    intro x hx hf
    have hxn := (List.mem_filter.mp hf).2
    simp only [decide_eq_true_eq] at hxn
    exact hxn hx
  unfold reindexDF
  dsimp only
  rw [pdConcat_self_cols _ _ _ hncnd
    (fun r hr => by
      obtain ⟨r0, _, rfl⟩ := List.mem_map.mp hr
      exact reindexRow_length _ _ _)
    (fun r hr => by
      obtain ⟨r0, _, rfl⟩ := List.mem_map.mp hr
      exact reindexRow_length _ _ _)]
  rw [List.map_cons, List.map_nil, reindexRow_assoc]

theorem cookieComparisonAppend_none (row : List (String × String)) :
    cookieComparisonAppend none row =
      ⟨dkeys row, [row.map (fun p => some p.2)]⟩ := rfl

theorem cleanDataAppend_none (cols : List String) (row : List (String × String)) :
    cleanDataAppend cols none row =
      ⟨cols, [cols.map (fun c => some ((dget row c).getD ""))]⟩ := by
  unfold cleanDataAppend
  dsimp only
  rw [List.map_map]
  rfl

theorem cleanDataAppend_spec (cols : List String) (ex : DataFrame)
    (row : List (String × String)) (hc : ex.cols = cols) (hnd : cols.Nodup)
    (hrows : ∀ r ∈ ex.rows, r.length = cols.length) :
    cleanDataAppend cols (some ex) row =
      ⟨cols, ex.rows ++ [cols.map (fun c => some ((dget row c).getD ""))]⟩ := by
  obtain ⟨ecols, erows⟩ := ex
  dsimp only at hc hrows
  subst hc
  unfold cleanDataAppend
  dsimp only
  rw [pdConcat_self_cols _ _ _ hnd hrows
    (fun r hr => by
      rw [List.mem_singleton] at hr
      subst hr
      simp)]
  rw [List.map_map]
  rfl

theorem dget_of_mem_nodup [DecidableEq κ] (row : List (κ × β)) (p : κ × β)
    (hnd : (dkeys row).Nodup) (hp : p ∈ row) : dget row p.1 = some p.2 := by
  induction row with
  | nil => exact absurd hp (List.not_mem_nil p)
  | cons q row ih =>
    rcases List.mem_cons.mp hp with rfl | hm
    · rw [dget, if_pos rfl]
    · rw [dkeys_cons, List.nodup_cons] at hnd
      have hne : q.1 ≠ p.1 := by
        intro he
        exact hnd.1 (by rw [he]; exact List.mem_map.mpr ⟨p, hm, rfl⟩)
      rw [dget, if_neg hne, ih hnd.2 hm]

theorem reindexRow_single_not_mem (s : List String) (r : List Cell) (k : String)
    (h : k ∉ s) : reindexRow s r [k] = [none] := by
  simp [reindexRow, idxOf?_eq_none s k h]

theorem mem_changedNamesList (before after : List CookieFrame) (n : Option String) :
    n ∈ changedNamesList before after ↔
      ∃ k : CookieKey, k.1 = n ∧
        (k ∈ addedKeys before after ∨ k ∈ removedKeys before after ∨
         k ∈ changedKeys before after) := by
  rw [changedNamesList, mem_pyFromKeys, List.mem_map]
  constructor
  · rintro ⟨k, hk, rfl⟩
    refine ⟨k, rfl, ?_⟩
    rcases List.mem_append.mp hk with hk2 | hk2
    · rcases List.mem_append.mp hk2 with hk3 | hk3
      · left
        have h3 := List.mem_filter.mp hk3
        rw [addedKeys, Finset.mem_sdiff, ← keyList_iff_keySet, ← keyList_iff_keySet]
        exact ⟨h3.1, by simpa using h3.2⟩
      · right; left
        have h3 := List.mem_filter.mp hk3
        rw [removedKeys, Finset.mem_sdiff, ← keyList_iff_keySet, ← keyList_iff_keySet]
        exact ⟨h3.1, by simpa using h3.2⟩
    · right; right
      have h3 := List.mem_filter.mp hk2
      have hb := h3.2
      rw [Bool.and_eq_true] at hb
      rw [changedKeys, Finset.mem_filter, commonKeys, Finset.mem_inter,
        ← keyList_iff_keySet, ← keyList_iff_keySet]
      exact ⟨⟨h3.1, by simpa using hb.1⟩, by simpa using hb.2⟩
  · rintro ⟨k, rfl, hcase⟩
    refine ⟨k, ?_, rfl⟩
    rcases hcase with hcs | hcs | hcs
    · apply List.mem_append.mpr; left
      apply List.mem_append.mpr; left
      rw [addedKeys, Finset.mem_sdiff, ← keyList_iff_keySet, ← keyList_iff_keySet] at hcs
      exact List.mem_filter.mpr ⟨hcs.1, by simpa using hcs.2⟩
    · apply List.mem_append.mpr; left
      apply List.mem_append.mpr; right
      rw [removedKeys, Finset.mem_sdiff, ← keyList_iff_keySet, ← keyList_iff_keySet] at hcs
      exact List.mem_filter.mpr ⟨hcs.1, by simpa using hcs.2⟩
    · apply List.mem_append.mpr; right
      rw [changedKeys, Finset.mem_filter, commonKeys, Finset.mem_inter,
        ← keyList_iff_keySet, ← keyList_iff_keySet] at hcs
      refine List.mem_filter.mpr ⟨hcs.1.1, ?_⟩
      rw [Bool.and_eq_true]
      exact ⟨by simpa using hcs.1.2, by simpa using hcs.2⟩

/-! ### Claim theorems -/

/-- C2 (counterexample): two raw cookies in one snapshot share the identity
`("campaign", "d", "/")` with values `"v1"` then `"v2"`; both the
identity-keyed map and the target snapshot retain the SECOND (last) cookie,
not the first as the claim states. -/
theorem c2_counterexample :
    dget (buildKeyMap
        [simpleFrame (some "campaign") (some "d") (some "/") "v1" "h1",
         simpleFrame (some "campaign") (some "d") (some "/") "v2" "h2"])
      (some "campaign", some "d", some "/") =
      some (simpleFrame (some "campaign") (some "d") (some "/") "v2" "h2") ∧
    dget (snapshotTargets (fun v => v)
        [simpleFrame (some "campaign") (some "d") (some "/") "v1" "h1",
         simpleFrame (some "campaign") (some "d") (some "/") "v2" "h2"])
      "campaign" = some ("v2", "v2") ∧
    ("v1" : String) ≠ "v2" := by
  refine ⟨?_, ?_, by decide⟩ <;> decide

/-- C2 (amended): when several raw cookies share an identity tuple or map to
the same target canonical key, the LAST occurrence wins: the identity-keyed
maps hold the last cookie with that identity, and the per-snapshot target
dict holds the value of the last cookie that classifies to that canonical
key. -/
theorem c2_amended_last_occurrence_wins :
    (∀ (cs : List CookieFrame) (k : CookieKey),
      dget (buildKeyMap cs) k =
        (cs.filter (fun c => decide (cookieKey c = k))).getLast?) ∧
    (∀ (h : String → String) (cs : List CookieFrame) (name : String),
      dget (snapshotTargets h cs) name =
        ((cs.filter (fun c =>
            decide (isTargetName (some (c.name.getD "")) = some name))).getLast?).map
          (fun c => (c.value, h c.value))) :=
  ⟨dget_buildKeyMap, dget_snapshotTargets⟩

/-- C3 (counterexample): with ordinal `2` configured, a target cookie that is
present with the EMPTY value renders in the wide row as the bare prefix
string `"2."` — the claim says a present-but-empty value is never turned
into a bare prefix string. -/
theorem c3_counterexample :
    valFromTargets (ordinalPfx 2)
      (snapshotTargets (fun v => v)
        [simpleFrame (some "campaign") (some "d") (some "/") "" "e3b0"])
      "campaign" = "2." ∧
    ("2." : String) ≠ "" := by
  refine ⟨?_, by decide⟩
  decide

/-- C3 (amended): the ordinal text `"o."` is prepended exactly when the
ordinal is non-zero and the canonical key is PRESENT in the snapshot's
target dict, irrespective of whether the stored value is empty (so a
present-but-empty value yields the bare prefix string); with ordinal `0`
no prefix is applied; a key absent from the snapshot renders as `""`. -/
theorem c3_amended_ordinal_prefixing :
    (ordinalPfx 0 = "") ∧
    (∀ o : Int, o ≠ 0 → ordinalPfx o = toString o ++ ".") ∧
    (∀ (o : Int) (targets : List (String × (String × String))) (name : String)
        (v : String × String), dget targets name = some v →
      valFromTargets (ordinalPfx o) targets name = ordinalPfx o ++ v.1) ∧
    (∀ (o : Int) (targets : List (String × (String × String))) (name : String),
      dget targets name = none → valFromTargets (ordinalPfx o) targets name = "") ∧
    (∀ (o : Int) (targets : List (String × (String × String))) (name : String)
        (hsh : String), o ≠ 0 → dget targets name = some ("", hsh) →
      valFromTargets (ordinalPfx o) targets name = toString o ++ ".") := by
  refine ⟨by simp [ordinalPfx], fun o ho => by simp [ordinalPfx, ho], ?_, ?_, ?_⟩
  · intro o targets name v hv
    simp [valFromTargets, hv]
  · intro o targets name hv
    simp [valFromTargets, hv]
  · intro o targets name hsh ho hv
    simp [valFromTargets, hv, ordinalPfx, ho]

/-- C3 (witness for the amended theorem): ordinal `2`, target cookie
`campaign` present with empty value → wide-row cell `"2."`. -/
theorem c3_amended_ordinal_prefixing_witness :
    valFromTargets (ordinalPfx 2)
      (snapshotTargets (fun v => v)
        [simpleFrame (some "campaign") (some "d") (some "/") "" "e3b0"])
      "campaign" = "2." := by
  have h := c3_amended_ordinal_prefixing.2.2.2.2 2
    (snapshotTargets (fun v => v)
      [simpleFrame (some "campaign") (some "d") (some "/") "" "e3b0"])
    "campaign" "" (by decide) (by decide)
  simpa using h

/-- C4: for every pair of snapshots, each identity key in the union of the
two key sets falls in exactly one of ADDED / REMOVED / CHANGED / UNCHANGED,
and swapping the snapshot arguments swaps ADDED with REMOVED while leaving
CHANGED and UNCHANGED fixed. -/
theorem c4_diff_partition_and_symmetry (before after : List CookieFrame) :
    (∀ k : CookieKey, k ∈ keySet before ∪ keySet after →
      ExactlyOneOfFour (k ∈ addedKeys before after) (k ∈ removedKeys before after)
        (k ∈ changedKeys before after) (k ∈ unchangedKeys before after)) ∧
    addedKeys after before = removedKeys before after ∧
    removedKeys after before = addedKeys before after ∧
    changedKeys after before = changedKeys before after ∧
    unchangedKeys after before = unchangedKeys before after := by
  refine ⟨?_, rfl, rfl, ?_, ?_⟩
  · intro k hk
    rw [Finset.mem_union] at hk
    unfold ExactlyOneOfFour addedKeys removedKeys changedKeys unchangedKeys commonKeys
    by_cases hb : k ∈ keySet before <;> by_cases ha : k ∈ keySet after
    · by_cases hh : (dget (buildKeyMap after) k).map CookieFrame.valueHash =
          (dget (buildKeyMap before) k).map CookieFrame.valueHash
      · simp [Finset.mem_sdiff, Finset.mem_filter, Finset.mem_inter, hb, ha, hh]
      · simp [Finset.mem_sdiff, Finset.mem_filter, Finset.mem_inter, hb, ha, hh]
    · simp [Finset.mem_sdiff, Finset.mem_filter, Finset.mem_inter, hb, ha]
    · simp [Finset.mem_sdiff, Finset.mem_filter, Finset.mem_inter, hb, ha]
    · rcases hk with hx | hx
      · exact absurd hx hb
      · exact absurd hx ha
  · apply Finset.ext
    intro k
    simp only [changedKeys, commonKeys, Finset.mem_filter, Finset.mem_inter]
    constructor
    · rintro ⟨⟨h1, h2⟩, h3⟩
      exact ⟨⟨h2, h1⟩, Ne.symm h3⟩
    · rintro ⟨⟨h1, h2⟩, h3⟩
      exact ⟨⟨h2, h1⟩, Ne.symm h3⟩
  · apply Finset.ext
    intro k
    simp only [unchangedKeys, commonKeys, Finset.mem_filter, Finset.mem_inter]
    constructor
    · rintro ⟨⟨h1, h2⟩, h3⟩
      exact ⟨⟨h2, h1⟩, h3.symm⟩
    · rintro ⟨⟨h1, h2⟩, h3⟩
      exact ⟨⟨h2, h1⟩, h3.symm⟩

/-- C4 (witness): an identity present only before is classified exactly as
REMOVED for a concrete pair of snapshots. -/
theorem c4_diff_partition_and_symmetry_witness :
    ExactlyOneOfFour
      (cookieKey (simpleFrame (some "sid") (some "d") (some "/") "v" "h1") ∈
        addedKeys [simpleFrame (some "sid") (some "d") (some "/") "v" "h1"] [])
      (cookieKey (simpleFrame (some "sid") (some "d") (some "/") "v" "h1") ∈
        removedKeys [simpleFrame (some "sid") (some "d") (some "/") "v" "h1"] [])
      (cookieKey (simpleFrame (some "sid") (some "d") (some "/") "v" "h1") ∈
        changedKeys [simpleFrame (some "sid") (some "d") (some "/") "v" "h1"] [])
      (cookieKey (simpleFrame (some "sid") (some "d") (some "/") "v" "h1") ∈
        unchangedKeys [simpleFrame (some "sid") (some "d") (some "/") "v" "h1"] []) :=
  (c4_diff_partition_and_symmetry
      [simpleFrame (some "sid") (some "d") (some "/") "v" "h1"] []).1
    (cookieKey (simpleFrame (some "sid") (some "d") (some "/") "v" "h1")) (by decide)

/-- C5: classification is a pure function of the name and the fixed target
list: empty or missing names are non-target; the lower-cased name is used
for comparison only — an exact match returns the config's canonical-case
name (checked before prefix families), a prefix-family match returns the raw
observed name, so distinct family members yield distinct canonical keys; a
name matching neither is non-target. -/
theorem c5_classifier_contract :
    (isTargetName none = none) ∧
    (isTargetName (some "") = none) ∧
    (∀ (s : String) (canon : String), s ≠ "" → dget CANON (strLower s) = some canon →
      isTargetName (some s) = some canon) ∧
    (∀ s : String, s ≠ "" → dget CANON (strLower s) = none →
      (∃ p ∈ PREFIXES, strStartsWith (strLower s) p) → isTargetName (some s) = some s) ∧
    (∀ s : String, s ≠ "" → dget CANON (strLower s) = none →
      (∀ p ∈ PREFIXES, ¬ strStartsWith (strLower s) p) → isTargetName (some s) = none) ∧
    isTargetName (some "CAMPAIGN") = isTargetName (some "campaign") ∧
    isTargetName (some "CAMPAIGN") = some "campaign" ∧
    isTargetName (some "_ga_ABC123") = some "_ga_ABC123" ∧
    isTargetName (some "_ga_XYZ789") = some "_ga_XYZ789" ∧
    ("_ga_ABC123" : String) ≠ "_ga_XYZ789" := by
  refine ⟨rfl, by decide, ?_, ?_, ?_, by decide, by decide, by decide, by decide, by decide⟩
  · intro s canon hs hc
    simp only [isTargetName, if_neg hs, hc]
  · intro s hs hc hex
    simp only [isTargetName, if_neg hs, hc]
    obtain ⟨p, hp, hsp⟩ := hex
    have hfind : (PREFIXES.find? (fun p => strStartsWith (strLower s) p)).isSome :=
      List.find?_isSome.mpr ⟨p, hp, hsp⟩
    cases hfd : PREFIXES.find? (fun p => strStartsWith (strLower s) p) with
    | none => rw [hfd] at hfind; simp at hfind
    | some q => rfl
  · intro s hs hc hnone
    simp only [isTargetName, if_neg hs, hc]
    have hfind : PREFIXES.find? (fun p => strStartsWith (strLower s) p) = none :=
      List.find?_eq_none.mpr (fun p hp => by simpa using hnone p hp)
    rw [hfind]

/-- C5 (witness): the exact-match clause applied at `"GCLID"` yields the
canonical-case key `"gclid"`. -/
theorem c5_classifier_contract_witness :
    isTargetName (some "GCLID") = some "gclid" :=
  c5_classifier_contract.2.2.1 "GCLID" "gclid" (by decide) (by decide)

/-- C8: when the container stays locked, `_retry_write` makes exactly
`MAX_RETRIES = 8` attempts, sleeping between consecutive attempts with the
geometric backoff `0.75 * 1.5^k`, and re-raises the final attempt's
`PermissionError`; when some attempt succeeds first, its result is returned
and no further attempts are made. -/
theorem c8_retry_bounded_backoff (f : Nat → Except WriteErr α) :
    ((∀ i, 1 ≤ i → i ≤ MAX_RETRIES → ∃ m, f i = .error (.permissionError m)) →
      retry_write f =
        (f MAX_RETRIES, backoffSleeps SLEEP_SECONDS (MAX_RETRIES - 1),
          List.range' 1 MAX_RETRIES)) ∧
    (∀ (j : Nat) (a : α), 1 ≤ j → j ≤ MAX_RETRIES → f j = .ok a →
      (∀ i, 1 ≤ i → i < j → ∃ m, f i = .error (.permissionError m)) →
      retry_write f = (.ok a, backoffSleeps SLEEP_SECONDS (j - 1), List.range' 1 j)) := by
  constructor
  · intro hperm
    have h := retryGo_all_permission f (MAX_RETRIES - 1) 1 SLEEP_SECONDS (by decide)
      (fun t ht1 ht2 => hperm t ht1 ht2)
    rw [retry_write, h, show MAX_RETRIES - 1 + 1 = MAX_RETRIES from by decide]
  · intro j a h1 h2 hok hperm
    have hj : 1 + (j - 1) = j := by omega
    have hstop : ∀ m, f (1 + (j - 1)) ≠ .error (.permissionError m) := by
      rw [hj, hok]
      intro m hcontra
      simp at hcontra
    have h := retryGo_stops f (j - 1) 1 SLEEP_SECONDS (by omega)
      (fun t ht1 ht2 => hperm t ht1 (by omega)) hstop
    rw [retry_write, h, hj, hok, show j - 1 + 1 = j from by omega]

/-- C8 (witness): attempts 1 and 2 hit a lock, attempt 3 succeeds: the result
is returned after exactly three attempts and two backoff sleeps. -/
theorem c8_retry_bounded_backoff_witness :
    retry_write (fun i => if i < 3 then Except.error (WriteErr.permissionError "locked")
        else Except.ok (7 : Nat)) =
      (Except.ok 7, backoffSleeps SLEEP_SECONDS 2, List.range' 1 3) :=
  (c8_retry_bounded_backoff (fun i =>
      if i < 3 then Except.error (WriteErr.permissionError "locked")
      else Except.ok (7 : Nat))).2 3 7 (by decide) (by decide) rfl
    (fun i _ h2 => ⟨"locked", by rw [if_pos h2]⟩)

/-- C10: a non-`PermissionError` raised by attempt `j` propagates to the
caller at once: the loop makes exactly the attempts `1..j`, performs only
the `j - 1` backoff sleeps owed to the earlier lock failures (none for the
failing attempt itself), and returns that error. -/
theorem c10_other_error_propagates (f : Nat → Except WriteErr α) (j : Nat)
    (m : String) :
    1 ≤ j → j ≤ MAX_RETRIES →
    (∀ i, 1 ≤ i → i < j → ∃ mm, f i = .error (.permissionError mm)) →
    f j = .error (.otherError m) →
    retry_write f =
      (.error (.otherError m), backoffSleeps SLEEP_SECONDS (j - 1),
        List.range' 1 j) := by
  intro h1 h2 hperm herr
  have hj : 1 + (j - 1) = j := by omega
  have hstop : ∀ mm, f (1 + (j - 1)) ≠ .error (.permissionError mm) := by
    rw [hj, herr]
    intro mm hcontra
    simp at hcontra
  have h := retryGo_stops f (j - 1) 1 SLEEP_SECONDS (by omega)
    (fun t ht1 ht2 => hperm t ht1 (by omega)) hstop
  rw [retry_write, h, hj, herr, show j - 1 + 1 = j from by omega]

/-- C10 (witness): a corrupt-file error on the very first attempt propagates
immediately: one attempt, no sleeps. -/
theorem c10_other_error_propagates_witness :
    retry_write (fun _ => (Except.error (WriteErr.otherError "corrupt") :
        Except WriteErr Nat)) =
      (Except.error (WriteErr.otherError "corrupt"), [], [1]) :=
  c10_other_error_propagates
    (fun _ => (Except.error (WriteErr.otherError "corrupt") : Except WriteErr Nat))
    1 "corrupt" le_rfl (by decide)
    (fun i hi hlt => absurd (lt_of_le_of_lt hi hlt) (lt_irrefl 1)) rfl

/-- C9 (counterexample): with an empty pre-action URL, a tick that observes
the non-empty current URL "http://x" (which differs from the pre-action URL)
records no redirect: the guard `curr_url and pre_url and ...` requires a
non-empty pre-action URL, so `redirect_url` stays empty, contradicting the
claim as stated. -/
theorem c9_counterexample :
    (observeRedirectRefreshAndTabs "" none [⟨[], "http://x", none⟩]).1 = "" ∧
    ("http://x" : String) ≠ "" := by
  refine ⟨?_, by decide⟩
  decide

/-- C9 (amended): when the pre-action URL is non-empty, `redirect_url` is
the current URL of the first tick whose URL is non-empty and differs from
the pre-action URL (so a recorded redirect is never replaced by a later
one); if no tick qualifies — in particular whenever the pre-action URL is
empty — the first discovered tab's URL is promoted, and otherwise the
result is the empty string. -/
theorem c9_redirect_attribution (preUrl : String) (preNavTs : Option ℚ)
    (ticks : List Tick) :
    (observeRedirectRefreshAndTabs preUrl preNavTs ticks).1 =
      if preUrl = "" then
        (match allTabs ticks with
         | [] => ""
         | tb :: _ => tb.url)
      else
        (match firstDiffering preUrl ticks with
         | some t => t.currUrl
         | none =>
           match allTabs ticks with
           | [] => ""
           | tb :: _ => tb.url) := by
  unfold observeRedirectRefreshAndTabs
  dsimp only
  have htabs : (ticks.foldl (observeStep preUrl preNavTs) ("", false, [])).2.2 =
      allTabs ticks := by
    rw [observe_fold_tabs]
    rfl
  by_cases hpre : preUrl = ""
  · subst hpre
    rw [if_pos rfl]
    have hred : (ticks.foldl (observeStep "" preNavTs) ("", false, [])).1 = "" :=
      observe_fold_redirect_pre_empty preNavTs ticks _
    rw [hred, htabs]
    cases htb : allTabs ticks with
    | nil => rw [if_neg (by simp)]
    | cons tb tl =>
      rw [if_pos ⟨rfl, by simp⟩]
      simp
  · rw [if_neg hpre]
    have hred := observe_fold_redirect_empty preUrl preNavTs hpre ticks ("", false, []) rfl
    cases hfd : firstDiffering preUrl ticks with
    | some t =>
      rw [hfd] at hred
      have hne : t.currUrl ≠ "" := by
        have hp := List.find?_some (by rw [← firstDiffering]; exact hfd)
        simp only [Bool.and_eq_true, decide_eq_true_eq] at hp
        exact hp.1
      rw [hred, if_neg (fun hc => hne hc.1)]
    | none =>
      rw [hfd] at hred
      rw [hred, htabs]
      cases htb : allTabs ticks with
      | nil => rw [if_neg (by simp)]
      | cons tb tl =>
        rw [if_pos ⟨rfl, by simp⟩]
        simp

/-- C7: a cookie receives a Before/After column pair in the wide row exactly
when (a) its canonical target key is present in the before or after target
snapshot (and a canonical key is present in a snapshot's target map iff some
cookie of that snapshot classifies to it), or (b) it is classified as
non-target and some identity bearing that name was added, removed or
value-changed; a non-target name all of whose identities are unchanged
contributes no columns. -/
theorem c7_wide_column_pairs (h : String → String)
    (before after : List CookieFrame) :
    (∀ ck : String, ck ∈ wideTargetBases h before after ↔
      (ck ∈ dkeys (snapshotTargets h before) ∨ ck ∈ dkeys (snapshotTargets h after))) ∧
    (∀ (cs : List CookieFrame) (ck : String),
      ck ∈ dkeys (snapshotTargets h cs) ↔
        ∃ c ∈ cs, isTargetName (some (c.name.getD "")) = some ck) ∧
    (∀ n : Option String, n ∈ wideNonTargetNames before after ↔
      (isTargetName n = none ∧ ∃ k : CookieKey, k.1 = n ∧
        (k ∈ addedKeys before after ∨ k ∈ removedKeys before after ∨
         k ∈ changedKeys before after))) := by
  refine ⟨?_, fun cs ck => mem_dkeys_snapshotTargets h cs ck, ?_⟩
  · intro ck
    rw [wideTargetBases, mem_sortByLe, mem_pyFromKeys, List.mem_append]
  · intro n
    rw [wideNonTargetNames, List.mem_filter, mem_sortByLe, mem_changedNamesList]
    constructor
    · rintro ⟨hm, hq⟩
      exact ⟨Option.isNone_iff_eq_none.mp hq, hm⟩
    · rintro ⟨hnone, hex⟩
      exact ⟨hex, by simp [hnone]⟩

/-- C6: appending a wide-comparison row whose keys all lie in the current
header leaves the header unchanged and appends the aligned row after the
untouched existing rows; appending a row with exactly one key outside the
header appends exactly that one trailing column, extends every prior row
with an empty (NaN) cell in the new column while leaving its other cells
unchanged, and then appends the aligned new row. -/
theorem c6_comparison_header_evolution (ex : DataFrame)
    (row : List (String × String)) (hnd : ex.cols.Nodup)
    (hrows : ∀ r ∈ ex.rows, r.length = ex.cols.length)
    (hrk : (dkeys row).Nodup) :
    ((∀ p ∈ row, p.1 ∈ ex.cols) →
      (cookieComparisonAppend (some ex) row).cols = ex.cols ∧
      (cookieComparisonAppend (some ex) row).rows =
        ex.rows ++ [ex.cols.map (fun c => dget row c)]) ∧
    (∀ k : String, (dkeys row).filter (fun c => decide (c ∉ ex.cols)) = [k] →
      (cookieComparisonAppend (some ex) row).cols = ex.cols ++ [k] ∧
      (cookieComparisonAppend (some ex) row).rows =
        ex.rows.map (fun r => r ++ [none]) ++
          [(ex.cols ++ [k]).map (fun c => dget row c)]) := by
  constructor
  · intro hsub
    have hfil : (dkeys row).filter (fun c => decide (c ∉ ex.cols)) = [] := by
      apply List.filter_eq_nil.mpr
      intro a ha
      obtain ⟨p, hp, rfl⟩ := List.mem_map.mp ha
      simp [hsub p hp]
    rw [cookieComparisonAppend_spec ex row hnd hrk, hfil]
    refine ⟨by simp, ?_⟩
    dsimp only
    simp only [List.append_nil]
    rw [map_reindexRow_self ex.rows ex.cols hnd hrows]
  · intro k hk
    have hknotin : k ∉ ex.cols := by
      have hmem : k ∈ (dkeys row).filter (fun c => decide (c ∉ ex.cols)) := by
        rw [hk]
        exact List.mem_singleton.mpr rfl
      simpa using (List.mem_filter.mp hmem).2
    rw [cookieComparisonAppend_spec ex row hnd hrk, hk]
    refine ⟨rfl, ?_⟩
    dsimp only
    have hmap : ex.rows.map (fun r => reindexRow ex.cols r (ex.cols ++ [k])) =
        ex.rows.map (fun r => r ++ [none]) :=
      List.map_congr_left (fun r hr => by
        rw [reindexRow_append, reindexRow_self ex.cols r hnd (hrows r hr),
          reindexRow_single_not_mem ex.cols r k hknotin])
    rw [hmap]

/-- C6 (witness): on the one-column table `⟨["A"], [[some "1"]]⟩`, appending
`[("A","x")]` keeps the header and rows, while appending
`[("A","x"),("B","y")]` adds column "B" at the end, pads the prior row with
an empty cell, and writes both values. -/
theorem c6_comparison_header_evolution_witness :
    ((cookieComparisonAppend (some ⟨["A"], [[some "1"]]⟩) [("A", "x")]).cols = ["A"] ∧
     (cookieComparisonAppend (some ⟨["A"], [[some "1"]]⟩) [("A", "x")]).rows =
       [[some "1"], [some "x"]]) ∧
    ((cookieComparisonAppend (some ⟨["A"], [[some "1"]]⟩)
        [("A", "x"), ("B", "y")]).cols = ["A", "B"] ∧
     (cookieComparisonAppend (some ⟨["A"], [[some "1"]]⟩)
        [("A", "x"), ("B", "y")]).rows =
       [[some "1", none], [some "x", some "y"]]) := by
  constructor
  · have h := (c6_comparison_header_evolution ⟨["A"], [[some "1"]]⟩ [("A", "x")]
      (by decide) (by decide) (by decide)).1 (by decide)
    refine ⟨h.1, ?_⟩
    rw [h.2]
    decide
  · have h := (c6_comparison_header_evolution ⟨["A"], [[some "1"]]⟩
      [("A", "x"), ("B", "y")] (by decide) (by decide) (by decide)).2 "B" (by decide)
    refine ⟨h.1, ?_⟩
    rw [h.2]
    decide

/-- C1 (counterexample): `append_clean_data_row` projects the row onto the
source template's `Clean_Data` header: with template header `["Timestamp"]`
and row `{"Foo": "bar"}`, the written sheet's header does NOT grow with
"Foo" and the value "bar" is dropped — the row is written as a single empty
cell — contradicting the claim for the Clean_Data table. -/
theorem c1_counterexample :
    (cleanDataAppend ["Timestamp"] none [("Foo", "bar")]).cols = ["Timestamp"] ∧
    "Foo" ∉ (cleanDataAppend ["Timestamp"] none [("Foo", "bar")]).cols ∧
    (cleanDataAppend ["Timestamp"] none [("Foo", "bar")]).rows = [[some ""]] := by
  refine ⟨?_, ?_, ?_⟩ <;> decide

/-- C1 (amended): for the Cookie Field Comparison table the claim holds —
unknown row keys grow the header additively at its end before the row is
written, the row is always written with every key's value at its column, and
header keys missing from the row become NaN cells, which render as the empty
string.  The Clean_Data table via `append_clean_data_row` instead projects
the row onto the source template's header: template columns missing from the
row render as the empty string, and row keys outside the template header are
silently dropped. -/
theorem c1_amended_header_growth :
    (∀ (ex : DataFrame) (row : List (String × String)),
      ex.cols.Nodup → (∀ r ∈ ex.rows, r.length = ex.cols.length) →
      (dkeys row).Nodup →
        (cookieComparisonAppend (some ex) row).cols =
          ex.cols ++ (dkeys row).filter (fun c => decide (c ∉ ex.cols)) ∧
        (∀ p ∈ row, p.1 ∈ (cookieComparisonAppend (some ex) row).cols ∧
          dget row p.1 = some p.2) ∧
        (cookieComparisonAppend (some ex) row).rows.getLast? =
          some ((cookieComparisonAppend (some ex) row).cols.map
            (fun c => dget row c))) ∧
    (∀ (cols : List String) (row : List (String × String)),
      cleanDataAppend cols none row =
        ⟨cols, [cols.map (fun c => some ((dget row c).getD ""))]⟩) ∧
    (∀ (cols : List String) (ex : DataFrame) (row : List (String × String)),
      ex.cols = cols → cols.Nodup → (∀ r ∈ ex.rows, r.length = cols.length) →
      cleanDataAppend cols (some ex) row =
        ⟨cols, ex.rows ++ [cols.map (fun c => some ((dget row c).getD ""))]⟩) := by
  refine ⟨?_, cleanDataAppend_none, cleanDataAppend_spec⟩
  intro ex row hnd hrows hrk
  rw [cookieComparisonAppend_spec ex row hnd hrk]
  refine ⟨rfl, ?_, ?_⟩
  · intro p hp
    refine ⟨?_, dget_of_mem_nodup row p hrk hp⟩
    by_cases hin : p.1 ∈ ex.cols
    · exact List.mem_append.mpr (Or.inl hin)
    · refine List.mem_append.mpr (Or.inr (List.mem_filter.mpr ?_))
      exact ⟨List.mem_map.mpr ⟨p, hp, rfl⟩, by simpa using hin⟩
  · dsimp only
    rw [List.getLast?_concat]

/-- C1 (witness): appending `{"B": "v"}` to the comparison table
`⟨["A"], [[some "1"]]⟩` grows the header with "B" and keeps the value, while
`append_clean_data_row` with template header `["A"]` and row `{"A": "x",
"B": "v"}` writes only the projection onto `["A"]`. -/
theorem c1_amended_header_growth_witness :
    ((cookieComparisonAppend (some ⟨["A"], [[some "1"]]⟩) [("B", "v")]).cols =
      ["A", "B"] ∧
     (cookieComparisonAppend (some ⟨["A"], [[some "1"]]⟩) [("B", "v")]).rows.getLast? =
      some [none, some "v"]) ∧
    cleanDataAppend ["A"] none [("A", "x"), ("B", "v")] =
      ⟨["A"], [[some "x"]]⟩ := by
  constructor
  · have h := c1_amended_header_growth.1 ⟨["A"], [[some "1"]]⟩ [("B", "v")]
      (by decide) (by decide) (by decide)
    refine ⟨?_, ?_⟩
    · rw [h.1]
      decide
    · rw [h.2.2, h.1]
      decide
  · rw [c1_amended_header_growth.2.1 ["A"] [("A", "x"), ("B", "v")]]
    decide

end CookieLab
